import Mathlib

/-!
Verification of the benchmark CI helper scripts of the `ithacaxyz/account`
repository (`.github/scripts/benchmark_comparison.py`, `check_regressions.py`,
`generate_charts.py`) against their natural-language specification.

Test identifiers are modelled as lists of characters so that substring
containment and the small regular-expression dialect used by the scripts can
be given executable semantics.  Gas values are natural numbers (the snapshots
map test names to non-negative integers); percentage values, computed with
Python floats in the scripts, are idealised as exact rationals.
-/

/-- Test identifiers, as character lists (Python strings). -/
abbrev TName := List Char

/-- Decides whether `n` is a prefix of `h` (used to build substring search). -/
def isPrefOf : TName → TName → Bool
  | [], _ => true
  | _ :: _, [] => false
  | a :: as, b :: bs => a == b && isPrefOf as bs

/-- Python's `needle in hay` substring containment on strings:
`containsSub hay needle` is `true` iff `needle` occurs contiguously in `hay`. -/
def containsSub : TName → TName → Bool
  | [], needle => isPrefOf needle []
  | c :: rest, needle => isPrefOf needle (c :: rest) || containsSub rest needle

/-- Python's `\w` word-character class (ASCII fragment, which covers every
test identifier produced by the benchmark suite). -/
def isWordChar (c : Char) : Bool := c.isAlphanum || c == '_'

/-- One item of the regular-expression dialect used in
`BenchmarkComparison.CATEGORIES`: a literal character, a character class such
as `[Bb]`, or the (possibly grouped) `\w+` repetition. -/
inductive RItem where
  | lit (c : Char)
  | cls (cs : List Char)
  | wordPlus
deriving DecidableEq

/-- A pattern of `BenchmarkComparison.CATEGORIES`: an optional `^` anchor, a
sequence of items, and an optional `$` anchor. -/
structure RPattern where
  anchorStart : Bool
  items : List RItem
  anchorEnd : Bool
deriving DecidableEq

/-- Items matching the whole string (used when the pattern ends in `$`;
the identifiers contain no newline, so `$` means end of string). -/
def matchEnd : List RItem → TName → Bool
  | items, [] => items.isEmpty
  | items, d :: s =>
    match items with
    | [] => false
    | .lit c :: rest => c == d && matchEnd rest s
    | .cls cs :: rest => cs.contains d && matchEnd rest s
    | .wordPlus :: rest => isWordChar d && (matchEnd rest s || matchEnd (.wordPlus :: rest) s)

/-- Items matching some prefix of the string (pattern without `$`). -/
def matchSome : List RItem → TName → Bool
  | items, [] => items.isEmpty
  | items, d :: s =>
    match items with
    | [] => true
    | .lit c :: rest => c == d && matchSome rest s
    | .cls cs :: rest => cs.contains d && matchSome rest s
    | .wordPlus :: rest => isWordChar d && (matchSome rest s || matchSome (.wordPlus :: rest) s)

/-- Match of a pattern at the current position, honouring the `$` anchor. -/
def searchHere (p : RPattern) (s : TName) : Bool :=
  if p.anchorEnd then matchEnd p.items s else matchSome p.items s

/-- Match of a pattern at any position of the string. -/
def searchAt : RPattern → TName → Bool
  | p, [] => searchHere p []
  | p, d :: s => searchHere p (d :: s) || searchAt p s

/-- Python's `re.search` for the pattern dialect of the scripts: with a `^`
anchor the pattern must match at the start, otherwise at any position. -/
def reSearch (p : RPattern) (s : TName) : Bool :=
  if p.anchorStart then searchHere p s else searchAt p s

/-- Literal pattern items for a string. -/
def lits (s : String) : List RItem := s.toList.map RItem.lit

/-- Python's `re.sub(r'_' + account_type + r'.*', '', test_name)` used at
`benchmark_comparison.py:125`: the leftmost occurrence of the literal marker
and everything after it (`.*` is greedy and the names contain no newline) is
removed, so the result is the prefix before the first occurrence of the
marker, or the whole string when the marker does not occur. -/
def stripFromMarker (marker : TName) : TName → TName
  | [] => []
  | c :: rest =>
    if isPrefOf marker (c :: rest) then [] else c :: stripFromMarker marker rest

/-- The seven entries of `BenchmarkComparison.ACCOUNT_TYPES`, in declared order. -/
def accIthaca : TName := "IthacaAccount".toList

/-- Second declared account type. -/
def accSpendLimits : TName := "IthacaAccountWithSpendLimits".toList

/-- Third declared account type. -/
def accERC4337 : TName := "ERC4337MinimalAccount".toList

/-- Fourth declared account type. -/
def accCoinbase : TName := "CoinbaseSmartWallet".toList

/-- Fifth declared account type. -/
def accAlchemy : TName := "AlchemyModularAccount".toList

/-- Sixth declared account type. -/
def accSafe : TName := "Safe4337".toList

/-- Seventh declared account type. -/
def accZerodev : TName := "ZerodevKernel".toList

/-- `BenchmarkComparison.ACCOUNT_TYPES` (`benchmark_comparison.py:19-27`). -/
def ACCOUNT_TYPES : List TName :=
  [accIthaca, accSpendLimits, accERC4337, accCoinbase, accAlchemy, accSafe, accZerodev]

/-- `BenchmarkComparison.get_account_type` (`benchmark_comparison.py:80-85`):
return the first declared account type occurring as a substring of the test
name, or nothing. -/
def get_account_type (test_name : TName) : Option TName :=
  ACCOUNT_TYPES.find? (fun account_type => containsSub test_name account_type)

/-- One entry of `BenchmarkComparison.CATEGORIES`: its key and its ordered
pattern list (the human-readable label plays no role in the analysis). -/
structure CatInfo where
  key : String
  patterns : List RPattern
deriving DecidableEq

/-- The `single_transfer` category (`benchmark_comparison.py:31-37`). -/
def catSingleTransfer : CatInfo :=
  ⟨"single_transfer",
    [⟨true, lits "testERC20Transfer_" ++ [.wordPlus], true⟩,
     ⟨true, lits "testNativeTransfer_" ++ [.wordPlus], true⟩]⟩

/-- The `batch_transfer` category (`benchmark_comparison.py:38-44`). -/
def catBatchTransfer : CatInfo :=
  ⟨"batch_transfer",
    [⟨true, lits "testERC20Transfer_" ++ [.cls ['B', 'b']] ++ lits "atch100_" ++ [.wordPlus], false⟩,
     ⟨true, lits "testERC20Transfer_batch100_" ++ [.wordPlus], false⟩]⟩

/-- The `uniswap` category (`benchmark_comparison.py:45-50`). -/
def catUniswap : CatInfo :=
  ⟨"uniswap", [⟨true, lits "testUniswapV2Swap_" ++ [.wordPlus], false⟩]⟩

/-- The `app_sponsor` category (`benchmark_comparison.py:51-56`). -/
def catAppSponsor : CatInfo :=
  ⟨"app_sponsor", [⟨false, lits "_AppSponsor", false⟩]⟩

/-- The `erc20_pay` category (`benchmark_comparison.py:57-62`). -/
def catErc20Pay : CatInfo :=
  ⟨"erc20_pay", [⟨false, lits "_ERC20SelfPay", false⟩]⟩

/-- `BenchmarkComparison.CATEGORIES` in declared order (`benchmark_comparison.py:30-63`). -/
def CATEGORIES : List CatInfo :=
  [catSingleTransfer, catBatchTransfer, catUniswap, catAppSponsor, catErc20Pay]

/-- `BenchmarkComparison.calculate_change` (`benchmark_comparison.py:71-78`). -/
def calculate_change (main_val pr_val : Nat) : Int × ℚ :=
  let absolute_change : Int := (pr_val : Int) - (main_val : Int)
  let percentage_change : ℚ :=
    if main_val = 0 then (if 0 < pr_val then 100 else 0)
    else ((absolute_change : ℚ) / (main_val : ℚ)) * 100
  (absolute_change, percentage_change)

/-- One value of `self.comparisons` (`benchmark_comparison.py:101-107`). -/
structure TestComparison where
  main : Nat
  pr : Nat
  absolute : Int
  percentage : ℚ
  account_type : Option TName
deriving DecidableEq

/-- A gas snapshot: a JSON object mapping test identifiers to non-negative
integers, modelled as an association list with distinct keys. -/
abbrev Snapshot := List (TName × Nat)

/-- `data.get(test_name, 0)` on a snapshot. -/
def getGas (s : Snapshot) (t : TName) : Nat := (s.lookup t).getD 0

/-- The body of the loop of `BenchmarkComparison.analyze`
(`benchmark_comparison.py:92-107`) for one test name: tests with both gas
values zero are skipped, every other test yields a comparison record. -/
def mkEntry (md pd : Snapshot) (t : TName) : Option (TName × TestComparison) :=
  let main_gas := getGas md t
  let pr_gas := getGas pd t
  if main_gas = 0 ∧ pr_gas = 0 then none
  else
    some (t,
      { main := main_gas
        pr := pr_gas
        absolute := (calculate_change main_gas pr_gas).1
        percentage := (calculate_change main_gas pr_gas).2
        account_type := get_account_type t })

/-- `self.comparisons` after `BenchmarkComparison.analyze`, as the insertion
ordered association list produced by iterating `set(main) | set(pr)` in the
iteration order `order` (Python string-set iteration order is not fixed; it
is passed explicitly here). -/
def analyze_comparisons (md pd : Snapshot) (order : List TName) : List (TName × TestComparison) :=
  order.filterMap (mkEntry md pd)

/-- The keys of `set(main_data) | set(pr_data)`, one canonical enumeration. -/
def keysUnion (md pd : Snapshot) : List TName :=
  md.map Prod.fst ++ (pd.map Prod.fst).filter (fun k => !(md.map Prod.fst).contains k)

/-- The iteration orders a Python string set with these keys can exhibit:
any duplicate-free enumeration of the union of the two key sets. -/
def validOrder (md pd : Snapshot) (o : List TName) : Prop :=
  o.Nodup ∧ o.Perm (keysUnion md pd)

/-- Whether the categorization loop of `_analyze_ithaca_comparisons`
(`benchmark_comparison.py:122-129`) files a test under the category `ci`:
some pattern of the category matches.  The `break` in the source exits only
the inner pattern loop, so each matching category files the test exactly
once and the scan then proceeds to the next category. -/
def filedUnder (ci : CatInfo) (t : TName) : Bool :=
  ci.patterns.any (fun p => reSearch p t)

/-- The filing the categorization loop produces for one comparison entry and
one category (`benchmark_comparison.py:117-129`): tests without an account
type are skipped, and a filed test is keyed by the name with the
`'_' + account_type` marker and everything after it stripped. -/
def groupedStep (ci : CatInfo) (e : TName × TestComparison) :
    Option (TName × TName × TestComparison) :=
  match e.2.account_type with
  | none => none
  | some a =>
    if filedUnder ci e.1 then some (stripFromMarker ('_' :: a) e.1, a, e.2) else none

/-- The `(base_test, account_type, data)` filings that the categorization
loop of `_analyze_ithaca_comparisons` (`benchmark_comparison.py:116-129`)
produces for the category `ci`, in iteration order of `comps`. -/
def groupedCategory (comps : List (TName × TestComparison)) (ci : CatInfo) :
    List (TName × TName × TestComparison) :=
  comps.filterMap (groupedStep ci)

/-- Keys of a Python dict in insertion order: first occurrences, left to right. -/
def firstKeys (l : List TName) : List TName :=
  l.foldl (fun acc k => if acc.contains k then acc else acc ++ [k]) []

/-- The base-test keys of one category's dict, in insertion order. -/
def categoryBases (triples : List (TName × TName × TestComparison)) : List TName :=
  firstKeys (triples.map (fun x => x.1))

/-- The account-type keys of the dict for one base test, in insertion order. -/
def subAccounts (triples : List (TName × TName × TestComparison)) (b : TName) : List TName :=
  firstKeys ((triples.filter (fun x => x.1 == b)).map (fun x => x.2.1))

/-- The value stored at `categories[ci][b][a]`: repeated assignments to the
same key keep the last one, as in a Python dict. -/
def subValue (triples : List (TName × TName × TestComparison)) (b a : TName) :
    Option TestComparison :=
  ((triples.filter (fun x => x.1 == b && x.2.1 == a)).getLast?).map (fun x => x.2.2)

/-- A per-competitor savings record of `_analyze_ithaca_comparisons`
(`benchmark_comparison.py:149-155`). -/
structure Savings where
  pr_savings_abs : Int
  pr_savings_pct : ℚ
  main_savings_abs : Int
  main_savings_pct : ℚ
  improvement : ℚ
deriving DecidableEq

/-- The savings record computed at `benchmark_comparison.py:141-155` for one
competitor (`account_data`) against the candidate (`ithaca_data`). -/
def savingsRecord (account_data ithaca_data : TestComparison) : Savings :=
  let pr_diff_abs : Int := (account_data.pr : Int) - (ithaca_data.pr : Int)
  let pr_diff_pct : ℚ :=
    if 0 < account_data.pr then ((pr_diff_abs : ℚ) / (account_data.pr : ℚ)) * 100 else 0
  let main_diff_abs : Int := (account_data.main : Int) - (ithaca_data.main : Int)
  let main_diff_pct : ℚ :=
    if 0 < account_data.main then ((main_diff_abs : ℚ) / (account_data.main : ℚ)) * 100 else 0
  { pr_savings_abs := pr_diff_abs
    pr_savings_pct := pr_diff_pct
    main_savings_abs := main_diff_abs
    main_savings_pct := main_diff_pct
    improvement := pr_diff_pct - main_diff_pct }

/-- `self.ithaca_comparisons[category_key]` (`benchmark_comparison.py:131-160`)
built from one category's filings: for every base test whose dict contains the
candidate account, the candidate's data together with one savings record per
other account in the dict. -/
def ithacaCompsFor (triples : List (TName × TName × TestComparison)) :
    List (TName × TestComparison × List (TName × Savings)) :=
  (categoryBases triples).filterMap (fun b =>
    match subValue triples b accIthaca with
    | none => none
    | some ithaca_data =>
      some (b, ithaca_data,
        (subAccounts triples b).filterMap (fun a =>
          if a == accIthaca then none
          else
            (subValue triples b a).map
              (fun account_data => (a, savingsRecord account_data ithaca_data)))))

/-- `self.ithaca_comparisons` over all categories.  (The Python dict omits a
category no test matched and orders keys by first receipt; here every
category is listed in declared order, an empty category mapping to the empty
list, which carries the same filings per category.) -/
def ithaca_comparisons (comps : List (TName × TestComparison)) :
    List (String × List (TName × TestComparison × List (TName × Savings))) :=
  CATEGORIES.map (fun ci => (ci.key, ithacaCompsFor (groupedCategory comps ci)))

/-- The `summary` object of `BenchmarkComparison.generate_json_data`
(`benchmark_comparison.py:325-330`), computed from the comparisons map. -/
structure Summary where
  total_tests : Nat
  ithaca_tests : Nat
  improvements : Nat
  regressions : Nat
deriving DecidableEq

/-- The summary counts of `generate_json_data` (`benchmark_comparison.py:325-330`). -/
def generate_json_summary (comps : List (TName × TestComparison)) : Summary :=
  { total_tests := comps.length
    ithaca_tests := (comps.filter (fun e => containsSub e.1 accIthaca)).length
    improvements := (comps.filter (fun e => decide (e.2.percentage < -1))).length
    regressions := (comps.filter (fun e => decide (e.2.percentage > 5))).length }

/-- `BenchmarkComparison.generate_json_data` (`benchmark_comparison.py:320-331`):
the serialized artifact, holding the comparisons map in its insertion order,
the per-category candidate comparisons, and the summary. -/
def generate_json_data (md pd : Snapshot) (order : List TName) :
    List (TName × TestComparison)
      × List (String × List (TName × TestComparison × List (TName × Savings)))
      × Summary :=
  let comps := analyze_comparisons md pd order
  (comps, ithaca_comparisons comps, generate_json_summary comps)

/-- Modelled from the spec: recomputation of the summary from a serialized
comparisons map alone — total is the number of entries, the ithaca count the
entries whose name contains the candidate identifier, improvements the
entries with percentage below minus one, regressions the entries with
percentage above five. -/
def recomputeSummary (comps : List (TName × TestComparison)) : Summary :=
  { total_tests := comps.length
    ithaca_tests := comps.countP (fun e => containsSub e.1 accIthaca)
    improvements := comps.countP (fun e => decide (e.2.percentage < -1))
    regressions := comps.countP (fun e => decide (e.2.percentage > 5)) }

/-- The `ithaca_tests` list of the markdown summary block
(`benchmark_comparison.py:170`): comparisons whose name contains the
candidate identifier. -/
def markdownIthacaTests (comps : List (TName × TestComparison)) :
    List (TName × TestComparison) :=
  comps.filter (fun e => containsSub e.1 accIthaca)

/-- The improvements count printed by the markdown summary block
(`benchmark_comparison.py:174`): candidate tests with strictly negative delta. -/
def markdown_improvements_count (comps : List (TName × TestComparison)) : Nat :=
  ((markdownIthacaTests comps).filter (fun e => decide (e.2.percentage < 0))).length

/-- The regressions count printed by the markdown summary block
(`benchmark_comparison.py:175`): candidate tests with delta above five. -/
def markdown_regressions_count (comps : List (TName × TestComparison)) : Nat :=
  ((markdownIthacaTests comps).filter (fun e => decide (e.2.percentage > 5))).length

/-- The result of `check_regressions` (`check_regressions.py:11-87`): the
regression and warning lists built by the classification loop and the exit
code, which is one exactly when the regression list is non-empty. -/
structure GateResult where
  regressions : List (TName × TestComparison)
  warnings : List (TName × TestComparison)
  exitCode : Nat
deriving DecidableEq

/-- `check_regressions` (`check_regressions.py:30-49` and `:87`): among the
comparisons whose name contains the candidate identifier, a delta above the
threshold is a regression, otherwise a delta above half the threshold is a
warning; the exit code is one iff some regression exists. -/
def check_regressions (comps : List (TName × TestComparison)) (threshold : ℚ) : GateResult :=
  let regressions := comps.filter (fun e =>
    containsSub e.1 accIthaca && decide (e.2.percentage > threshold))
  let warnings := comps.filter (fun e =>
    containsSub e.1 accIthaca && !decide (e.2.percentage > threshold)
      && decide (e.2.percentage > threshold / 2))
  { regressions := regressions
    warnings := warnings
    exitCode := if regressions.isEmpty then 0 else 1 }

/-- The aggregate verdict printed by `check_regressions`
(`check_regressions.py:76-84`): overall improvement when the mean candidate
delta is below minus one, overall increase when above one, otherwise no
message.  It is only printed and plays no role in the exit code. -/
def gateVerdict (comps : List (TName × TestComparison)) : Option Bool :=
  let ithaca_tests := comps.filter (fun e => containsSub e.1 accIthaca)
  if ithaca_tests.isEmpty then none
  else
    let avg := (ithaca_tests.map (fun e => e.2.percentage)).sum / (ithaca_tests.length : ℚ)
    if avg < -1 then some true else if avg > 1 then some false else none

/-- Python's `str.lower` on a test identifier (ASCII). -/
def lowerName (t : TName) : TName := t.map Char.toLower

/-- The `single_erc20` operation filter of `generate_charts.py:170`. -/
def filtSingleErc20 (t : TName) : Bool :=
  containsSub t "testERC20Transfer_".toList
    && !containsSub (lowerName t) "batch".toList
    && !containsSub t "Sponsor".toList
    && !containsSub t "ERC20SelfPay".toList

/-- The `batch_erc20` operation filter of `generate_charts.py:171`. -/
def filtBatchErc20 (t : TName) : Bool :=
  (containsSub (lowerName t) "batch100".toList || containsSub t "Batch100".toList)
    && containsSub t "ERC20Transfer".toList

/-- The `uniswap` operation filter of `generate_charts.py:172`. -/
def filtUniswap (t : TName) : Bool := containsSub t "UniswapV2Swap".toList

/-- The `native` operation filter of `generate_charts.py:173`. -/
def filtNative (t : TName) : Bool := containsSub t "testNativeTransfer".toList

/-- Lookup in an association list representing a Python dict (first
occurrence; the dicts built here never hold a key twice). -/
def alookup {β : Type} (a : TName) : List (TName × β) → Option β
  | [] => none
  | (k, b) :: es => if k = a then some b else alookup a es

/-- In-place replacement of the entry of one key of a Python dict. -/
def updateEntry (a : TName) (v : Nat) : TName × Nat → TName × Nat
  | (k, w) => if k = a then (a, v) else (k, w)

/-- The dict update of `generate_charts.py:181-182`: store the PR gas for an
account when the account is new or the value is smaller than the stored one
(existing keys are updated in place, new keys appended, as in a Python dict). -/
def updateMin (cd : List (TName × Nat)) (a : TName) (v : Nat) : List (TName × Nat) :=
  match alookup a cd with
  | none => cd ++ [(a, v)]
  | some old => if v < old then cd.map (updateEntry a v) else cd

/-- One iteration of the chart-data loop of `generate_charts.py:178-182`. -/
def chartStep (filt : TName → Bool) (cd : List (TName × Nat)) (e : TName × TestComparison) :
    List (TName × Nat) :=
  match e.2.account_type with
  | none => cd
  | some a => if filt e.1 then updateMin cd a e.2.pr else cd

/-- The `chart_data` dict built for one operation filter
(`generate_charts.py:177-182`). -/
def chartData (comps : List (TName × TestComparison)) (filt : TName → Bool) :
    List (TName × Nat) :=
  comps.foldl (chartStep filt) []

/-- Whether a chart file is written for the filter (`generate_charts.py:184`):
only when the chart data is non-empty. -/
def emitsChart (comps : List (TName × TestComparison)) (filt : TName → Bool) : Bool :=
  !(chartData comps filt).isEmpty

/-- The PR gas values of the comparison entries matching a filter with a
given account type, in iteration order. -/
def matchingPrs (comps : List (TName × TestComparison)) (filt : TName → Bool) (a : TName) :
    List Nat :=
  comps.filterMap (fun e =>
    if filt e.1 = true ∧ e.2.account_type = some a then some e.2.pr else none)

/-- The least element of a list of naturals, if any. -/
def listMin : List Nat → Option Nat
  | [] => none
  | v :: rest => some (rest.foldl Nat.min v)

/-- The chart invariant claimed for one operation filter: each charted value
is exactly the minimum PR gas among the matching tests of that account type,
and a chart is emitted exactly when some test matches the filter and has an
account type. -/
def chartProp (filt : TName → Bool) : Prop :=
  ∀ comps : List (TName × TestComparison),
    (∀ a, alookup a (chartData comps filt) = listMin (matchingPrs comps filt a)) ∧
    (∀ a v, alookup a (chartData comps filt) = some v ↔
      v ∈ matchingPrs comps filt a ∧ ∀ x ∈ matchingPrs comps filt a, v ≤ x) ∧
    (emitsChart comps filt = false ↔
      ∀ e ∈ comps, ¬(filt e.1 = true ∧ (e.2.account_type).isSome = true))

/-- Concrete name filed under two categories (it matches the first
`single_transfer` pattern and the `app_sponsor` pattern). -/
def nameSponsored : TName := "testERC20Transfer_IthacaAccount_AppSponsor".toList

/-- Main snapshot for the category counterexample. -/
def mdCat : Snapshot := [(nameSponsored, 100)]

/-- PR snapshot for the category counterexample. -/
def pdCat : Snapshot := [(nameSponsored, 90)]

/-- Iteration order for the category counterexample. -/
def ordCat : List TName := [nameSponsored]

/-- Comparisons map of the category counterexample. -/
def compsCat : List (TName × TestComparison) := analyze_comparisons mdCat pdCat ordCat

/-- The comparison record of the category counterexample test. -/
def dCat : TestComparison := ⟨100, 90, -10, -10, some accIthaca⟩

/-- First test name of the determinism counterexample. -/
def nameDetA : TName := "testFoo_A".toList

/-- Second test name of the determinism counterexample. -/
def nameDetB : TName := "testFoo_B".toList

/-- Main snapshot of the determinism counterexample (empty). -/
def mdDet : Snapshot := []

/-- PR snapshot of the determinism counterexample. -/
def pdDet : Snapshot := [(nameDetA, 1), (nameDetB, 2)]

/-- One possible set-iteration order of the determinism counterexample. -/
def ordDetA : List TName := [nameDetA, nameDetB]

/-- The other set-iteration order of the determinism counterexample. -/
def ordDetB : List TName := [nameDetB, nameDetA]

/-- Name with no account type for the summary-definitions example. -/
def nameSumPlain : TName := "testPlain_A".toList

/-- Candidate-account name for the summary-definitions example. -/
def nameSumIthaca : TName := "testERC20Transfer_IthacaAccount".toList

/-- Second plain name for the summary-definitions example. -/
def nameSumOther : TName := "testPlain_C".toList

/-- Main snapshot of the summary-definitions example. -/
def mdSum : Snapshot := [(nameSumPlain, 100), (nameSumIthaca, 1000), (nameSumOther, 100)]

/-- PR snapshot of the summary-definitions example. -/
def pdSum : Snapshot := [(nameSumPlain, 50), (nameSumIthaca, 1000), (nameSumOther, 200)]

/-- Iteration order of the summary-definitions example. -/
def ordSum : List TName := [nameSumPlain, nameSumIthaca, nameSumOther]

/-- Comparisons map of the summary-definitions example. -/
def compsSum : List (TName × TestComparison) := analyze_comparisons mdSum pdSum ordSum

/-- Candidate test of the savings example. -/
def nameSavI : TName := "testERC20Transfer_IthacaAccount".toList

/-- Competitor test of the savings example. -/
def nameSavS : TName := "testERC20Transfer_Safe4337".toList

/-- Main snapshot of the savings example. -/
def mdSav : Snapshot := [(nameSavI, 100), (nameSavS, 200)]

/-- PR snapshot of the savings example. -/
def pdSav : Snapshot := [(nameSavI, 90), (nameSavS, 200)]

/-- Iteration order of the savings example. -/
def ordSav : List TName := [nameSavI, nameSavS]

/-- Comparisons map of the savings example. -/
def compsSav : List (TName × TestComparison) := analyze_comparisons mdSav pdSav ordSav

/-- Single-transfer filings of the savings example. -/
def triplesSav : List (TName × TName × TestComparison) :=
  groupedCategory compsSav catSingleTransfer

/-- Base test of the savings example. -/
def baseSav : TName := "testERC20Transfer".toList

/-- Candidate data of the savings example. -/
def iSav : TestComparison := ⟨100, 90, -10, -10, some accIthaca⟩

/-- Savings record of the savings example. -/
def sSav : Savings := ⟨110, 55, 100, 50, 5⟩

/-- Test name of the basic comparison witness. -/
def nameBasic : TName := "testX".toList

/-- Main snapshot of the basic comparison witness. -/
def mdBasic : Snapshot := [(nameBasic, 100)]

/-- PR snapshot of the basic comparison witness. -/
def pdBasic : Snapshot := [(nameBasic, 120)]

/-- Iteration order of the basic comparison witness. -/
def ordBasic : List TName := [nameBasic]

/-- Helper for the chart invariant proof: the running minimum seeded by an
optional already-stored value. -/
def combineMin : Option Nat → List Nat → Option Nat
  | none, l => listMin l
  | some v, l => some (l.foldl Nat.min v)

section SubstringLemmas

theorem isPrefOf_iff (n h : TName) : isPrefOf n h = true ↔ ∃ r, h = n ++ r := by
  induction n generalizing h with
  | nil =>
    constructor
    · intro _; exact ⟨h, rfl⟩
    · intro _; rfl
  | cons a as ih =>
    cases h with
    | nil =>
      constructor
      · intro hc; simp [isPrefOf] at hc
      · rintro ⟨r, hr⟩; simp at hr
    | cons b bs =>
      constructor
      · intro hc
        simp only [isPrefOf, Bool.and_eq_true, beq_iff_eq] at hc
        obtain ⟨rfl, h2⟩ := hc
        obtain ⟨r, rfl⟩ := (ih bs).mp h2
        exact ⟨r, rfl⟩
      · rintro ⟨r, hr⟩
        rw [List.cons_append] at hr
        injection hr with h1 h2
        subst h1
        simp only [isPrefOf, Bool.and_eq_true, beq_iff_eq]
        exact ⟨by simp, (ih bs).mpr ⟨r, h2⟩⟩

theorem containsSub_iff (h n : TName) : containsSub h n = true ↔ ∃ l r, h = l ++ n ++ r := by
  induction h with
  | nil =>
    simp only [containsSub, isPrefOf_iff]
    constructor
    · rintro ⟨r, hr⟩; exact ⟨[], r, by simpa using hr⟩
    · rintro ⟨l, r, hr⟩
      have h0 := hr.symm
      simp only [List.append_eq_nil] at h0
      obtain ⟨⟨-, hn⟩, -⟩ := h0
      exact ⟨[], by simp [hn]⟩
  | cons c cs ih =>
    simp only [containsSub, Bool.or_eq_true, isPrefOf_iff, ih]
    constructor
    · rintro (⟨r, hr⟩ | ⟨l, r, hr⟩)
      · exact ⟨[], r, by simpa using hr⟩
      · exact ⟨c :: l, r, by simp [hr]⟩
    · rintro ⟨l, r, hr⟩
      cases l with
      | nil => exact Or.inl ⟨r, by simpa using hr⟩
      | cons x xs =>
        simp only [List.cons_append, List.append_assoc] at hr
        injection hr with h1 h2
        exact Or.inr ⟨xs, r, by simp [h2, List.append_assoc]⟩

theorem containsSub_trans {a b c : TName} (h1 : containsSub a b = true)
    (h2 : containsSub b c = true) : containsSub a c = true := by
  rw [containsSub_iff] at h1 h2 ⊢
  obtain ⟨l1, r1, rfl⟩ := h1
  obtain ⟨l2, r2, rfl⟩ := h2
  exact ⟨l1 ++ l2, r2 ++ r1, by simp [List.append_assoc]⟩

theorem find?_cons_ite {α : Type} (p : α → Bool) (a : α) (l : List α) :
    List.find? p (a :: l) = if p a = true then some a else List.find? p l := by
  by_cases hp : p a = true
  · simp [List.find?_cons_of_pos, hp]
  · simp only [Bool.not_eq_true] at hp
    simp [List.find?_cons_of_neg, hp]

end SubstringLemmas

/-- C4: for every test identifier, account-type resolution scans the seven
account-type names in declared order and returns the first whose characters
occur contiguously in the identifier (none when no name occurs); substring
containment here provably means contiguous occurrence; and an identifier
containing both the candidate name and its spend-limits extension resolves
to the earlier-declared candidate name. -/
theorem c4_account_type_first_substring_match :
    (∀ t : TName,
      get_account_type t =
        if containsSub t accIthaca = true then some accIthaca
        else if containsSub t accSpendLimits = true then some accSpendLimits
        else if containsSub t accERC4337 = true then some accERC4337
        else if containsSub t accCoinbase = true then some accCoinbase
        else if containsSub t accAlchemy = true then some accAlchemy
        else if containsSub t accSafe = true then some accSafe
        else if containsSub t accZerodev = true then some accZerodev
        else none) ∧
    (∀ t a : TName, containsSub t a = true ↔ ∃ l r, t = l ++ a ++ r) ∧
    (ACCOUNT_TYPES[0]? = some accIthaca ∧ ACCOUNT_TYPES[1]? = some accSpendLimits) ∧
    (containsSub ("testERC20Transfer_IthacaAccountWithSpendLimits".toList) accIthaca = true ∧
     containsSub ("testERC20Transfer_IthacaAccountWithSpendLimits".toList) accSpendLimits = true ∧
     get_account_type ("testERC20Transfer_IthacaAccountWithSpendLimits".toList) = some accIthaca) := by
  refine ⟨?_, containsSub_iff, ⟨by decide, by decide⟩, by decide, by decide, by decide⟩
  intro t
  simp only [get_account_type, ACCOUNT_TYPES, find?_cons_ite, List.find?_nil]

/-- C9: `get_account_type` can never return the second declared account type
`IthacaAccountWithSpendLimits`: any identifier containing it also contains
the earlier-declared `IthacaAccount`, which wins the scan. -/
theorem c9_spendlimits_unreachable (t a : TName)
    (h : get_account_type t = some a) : a ≠ accSpendLimits := by
  simp only [get_account_type, ACCOUNT_TYPES, find?_cons_ite, List.find?_nil] at h
  split_ifs at h with h1 h2 h3 h4 h5 h6 h7
  · obtain rfl : accIthaca = a := by injection h
    decide
  · exact absurd (containsSub_trans h2 (by decide)) h1
  · obtain rfl : accERC4337 = a := by injection h
    decide
  · obtain rfl : accCoinbase = a := by injection h
    decide
  · obtain rfl : accAlchemy = a := by injection h
    decide
  · obtain rfl : accSafe = a := by injection h
    decide
  · obtain rfl : accZerodev = a := by injection h
    decide

theorem c9_spendlimits_unreachable_witness :
    get_account_type nameSumIthaca = some accIthaca ∧ accIthaca ≠ accSpendLimits :=
  ⟨by decide, c9_spendlimits_unreachable nameSumIthaca accIthaca (by decide)⟩

theorem groupedStep_eq_some {ci : CatInfo} {u : TName} {c : TestComparison}
    {x : TName × TName × TestComparison} :
    groupedStep ci (u, c) = some x ↔
      ∃ b, c.account_type = some b ∧ filedUnder ci u = true ∧
        x = (stripFromMarker ('_' :: b) u, b, c) := by
  constructor
  · intro hfm
    rcases hb : c.account_type with _ | b
    · simp [groupedStep, hb] at hfm
    · by_cases hf : filedUnder ci u = true
      · simp only [groupedStep, hb, hf, if_true, Option.some.injEq] at hfm
        exact ⟨b, rfl, hf, hfm.symm⟩
      · simp [groupedStep, hb, hf] at hfm
  · rintro ⟨b, hb, hf, rfl⟩
    simp [groupedStep, hb, hf]

section ConcreteEvaluation

attribute [local semireducible] Rat.add Rat.sub Rat.mul Rat.inv

/-- C3, counterexample: the identifier `testERC20Transfer_IthacaAccount_AppSponsor`
matches a pattern of the first declared category (`single_transfer`) and one
of the later-declared `app_sponsor` category, and the categorization loop
files it under BOTH: the later category is still tried after the first
match, because the `break` at `benchmark_comparison.py:129` exits only the
inner pattern loop.  This refutes the claim that a test is filed under at
most the first matching category. -/
theorem c3_counterexample_filed_under_two_categories :
    filedUnder catSingleTransfer nameSponsored = true ∧
    filedUnder catAppSponsor nameSponsored = true ∧
    CATEGORIES[0]? = some catSingleTransfer ∧
    CATEGORIES[3]? = some catAppSponsor ∧
    (stripFromMarker ('_' :: accIthaca) nameSponsored, accIthaca,
      (⟨100, 90, -10, -10, some accIthaca⟩ : TestComparison)) ∈
        groupedCategory compsCat catSingleTransfer ∧
    (stripFromMarker ('_' :: accIthaca) nameSponsored, accIthaca,
      (⟨100, 90, -10, -10, some accIthaca⟩ : TestComparison)) ∈
        groupedCategory compsCat catAppSponsor := by
  decide

/-- C5, counterexample (the nondeterminism behind the code bug): on identical
snapshots, two iteration orders that a Python string set may exhibit for the
same key set produce comparison maps that serialize with their entries in
different orders, so the emitted JSON artifact is not byte-identical across
runs. -/
theorem c5_output_depends_on_set_iteration_order :
    validOrder mdDet pdDet ordDetA ∧ validOrder mdDet pdDet ordDetB ∧
    analyze_comparisons mdDet pdDet ordDetA ≠ analyze_comparisons mdDet pdDet ordDetB ∧
    (generate_json_data mdDet pdDet ordDetA).1 ≠ (generate_json_data mdDet pdDet ordDetB).1 :=
  ⟨⟨by decide, by decide⟩, ⟨by decide, by decide⟩, by decide, by decide⟩

end ConcreteEvaluation

/-- C3, amended: a test with an account type is filed under EVERY category
one of whose patterns matches it (the pattern scan inside each category
stops at the first matching pattern, so the test is filed at most once per
category, and the filings are exactly the matching pairs). -/
theorem c3_amended_filed_under_every_matching_category
    (comps : List (TName × TestComparison)) (ci : CatInfo) (t : TName)
    (d : TestComparison) (a : TName)
    (hmem : (t, d) ∈ comps) (hacc : d.account_type = some a) :
    (filedUnder ci t = true →
      (stripFromMarker ('_' :: a) t, a, d) ∈ groupedCategory comps ci) ∧
    (∀ x ∈ groupedCategory comps ci,
      ∃ u c b, (u, c) ∈ comps ∧ c.account_type = some b ∧ filedUnder ci u = true ∧
        x = (stripFromMarker ('_' :: b) u, b, c)) ∧
    (groupedCategory comps ci).length ≤ comps.length := by
  refine ⟨?_, ?_, ?_⟩
  · intro hf
    exact List.mem_filterMap.mpr
      ⟨(t, d), hmem, groupedStep_eq_some.mpr ⟨a, hacc, hf, rfl⟩⟩
  · intro x hx
    obtain ⟨⟨u, c⟩, hu, hfm⟩ := List.mem_filterMap.mp hx
    obtain ⟨b, hb, hf, rfl⟩ := groupedStep_eq_some.mp hfm
    exact ⟨u, c, b, hu, hb, hf, rfl⟩
  · exact List.length_filterMap_le _ _

theorem mkEntry_eq_some_name {md pd : Snapshot} {u : TName} {e : TName × TestComparison}
    (h : mkEntry md pd u = some e) : e.1 = u := by
  simp only [mkEntry] at h
  by_cases h0 : getGas md u = 0 ∧ getGas pd u = 0
  · rw [if_pos h0] at h
    exact absurd h (by simp)
  · rw [if_neg h0] at h
    injection h with h
    rw [← h]

/-- C1: for every test identifier present in the iteration order, a test with
both gas values zero never appears in the comparisons map, and every other
test appears with `absolute = pr - main`, percentage `(pr - main) / main * 100`
when `main > 0` (hence `-100` when additionally `pr = 0`), and `100` when
`main = 0 < pr`. -/
theorem c1_per_test_delta_invariant (md pd : Snapshot) (order : List TName)
    (t : TName) (m p : Nat) (ht : t ∈ order)
    (hm : getGas md t = m) (hp : getGas pd t = p) :
    (m = 0 ∧ p = 0 → ∀ e ∈ analyze_comparisons md pd order, e.1 ≠ t) ∧
    (¬(m = 0 ∧ p = 0) → ∃ c : TestComparison,
      (t, c) ∈ analyze_comparisons md pd order ∧
      c.main = m ∧ c.pr = p ∧
      c.absolute = (p : Int) - (m : Int) ∧
      (0 < m → c.percentage = (((p : ℚ) - (m : ℚ)) / (m : ℚ)) * 100) ∧
      (m = 0 → 0 < p → c.percentage = 100) ∧
      (0 < m → p = 0 → c.percentage = -100) ∧
      c.account_type = get_account_type t) := by
  subst hm
  subst hp
  constructor
  · rintro ⟨h0m, h0p⟩ e he heq
    obtain ⟨u, hu, hmk⟩ := List.mem_filterMap.mp he
    have hname := mkEntry_eq_some_name hmk
    have hut : u = t := by rw [← hname, heq]
    subst hut
    simp only [mkEntry, h0m, h0p] at hmk
    exact absurd hmk (by simp)
  · intro hne
    refine ⟨{ main := getGas md t, pr := getGas pd t,
              absolute := (calculate_change (getGas md t) (getGas pd t)).1,
              percentage := (calculate_change (getGas md t) (getGas pd t)).2,
              account_type := get_account_type t }, ?_, rfl, rfl, ?_, ?_, ?_, ?_, rfl⟩
    · refine List.mem_filterMap.mpr ⟨t, ht, ?_⟩
      simp only [mkEntry, if_neg hne]
    · simp [calculate_change]
    · intro hmpos
      have hm0 : getGas md t ≠ 0 := Nat.pos_iff_ne_zero.mp hmpos
      simp only [calculate_change, if_neg hm0]
      push_cast
      ring
    · intro hm0 hppos
      simp [calculate_change, hm0, hppos]
    · intro hmpos hp0
      have hm0 : getGas md t ≠ 0 := Nat.pos_iff_ne_zero.mp hmpos
      have hmq : (getGas md t : ℚ) ≠ 0 := Nat.cast_ne_zero.mpr hm0
      simp only [calculate_change, hp0, if_neg hm0]
      push_cast
      field_simp

/-- C2: the gate classifies a candidate-account comparison as a regression
exactly when its delta strictly exceeds the threshold, as a warning exactly
when its delta lies in the half-open interval from half the threshold
(exclusive) to the threshold (inclusive); the exit code is one exactly when
some regression exists and zero otherwise, so the aggregate mean-delta
verdict (`gateVerdict`) cannot affect it. -/
theorem c2_gate_classification_and_exit
    (comps : List (TName × TestComparison)) (threshold : ℚ) :
    (∀ e, e ∈ (check_regressions comps threshold).regressions ↔
      e ∈ comps ∧ containsSub e.1 accIthaca = true ∧ threshold < e.2.percentage) ∧
    (∀ e, e ∈ (check_regressions comps threshold).warnings ↔
      e ∈ comps ∧ containsSub e.1 accIthaca = true ∧
        threshold / 2 < e.2.percentage ∧ e.2.percentage ≤ threshold) ∧
    ((check_regressions comps threshold).exitCode = 1 ↔
      ∃ e ∈ comps, containsSub e.1 accIthaca = true ∧ threshold < e.2.percentage) ∧
    ((check_regressions comps threshold).exitCode = 0 ↔
      ¬∃ e ∈ comps, containsSub e.1 accIthaca = true ∧ threshold < e.2.percentage) := by
  have hreg : ∀ e, e ∈ (check_regressions comps threshold).regressions ↔
      e ∈ comps ∧ containsSub e.1 accIthaca = true ∧ threshold < e.2.percentage := by
    intro e
    simp only [check_regressions, List.mem_filter, Bool.and_eq_true, decide_eq_true_eq,
      gt_iff_lt, and_assoc]
  have hexit1 : (check_regressions comps threshold).exitCode = 1 ↔
      ∃ e ∈ comps, containsSub e.1 accIthaca = true ∧ threshold < e.2.percentage := by
    constructor
    · intro h1
      simp only [check_regressions] at h1
      by_cases hemp : (comps.filter (fun e =>
          containsSub e.1 accIthaca && decide (e.2.percentage > threshold))).isEmpty
      · rw [if_pos hemp] at h1
        exact absurd h1 (by decide)
      · rw [List.isEmpty_iff] at hemp
        obtain ⟨e, he⟩ := List.exists_mem_of_ne_nil _ hemp
        have := (hreg e).mp he
        exact ⟨e, this.1, this.2⟩
    · rintro ⟨e, hmem, hith, hpct⟩
      have he : e ∈ (check_regressions comps threshold).regressions :=
        (hreg e).mpr ⟨hmem, hith, hpct⟩
      simp only [check_regressions] at he ⊢
      rw [if_neg ?_]
      intro hemp
      rw [List.isEmpty_iff] at hemp
      rw [hemp] at he
      exact absurd he (by simp)
  refine ⟨hreg, ?_, hexit1, ?_⟩
  · intro e
    simp only [check_regressions, List.mem_filter, Bool.and_eq_true, decide_eq_true_eq,
      Bool.not_eq_true', decide_eq_false_iff_not, gt_iff_lt, not_lt, and_assoc]
    constructor
    · rintro ⟨h1, h2, h3, h4⟩
      exact ⟨h1, h2, h4, h3⟩
    · rintro ⟨h1, h2, h3, h4⟩
      exact ⟨h1, h2, h4, h3⟩
  · rw [← hexit1]
    have h01 : (check_regressions comps threshold).exitCode = 0 ∨
        (check_regressions comps threshold).exitCode = 1 := by
      simp only [check_regressions]
      by_cases hemp : (comps.filter (fun e =>
          containsSub e.1 accIthaca && decide (e.2.percentage > threshold))).isEmpty
      · exact Or.inl (if_pos hemp)
      · exact Or.inr (if_neg hemp)
    rcases h01 with h | h <;> rw [h] <;> decide

/-- C6: the summary counts stored in the serialized JSON artifact coincide
with the counts recomputed from the comparisons map contained in the same
artifact (idempotent aggregation). -/
theorem c6_summary_recomputation_round_trip (md pd : Snapshot) (order : List TName) :
    (generate_json_data md pd order).2.2 =
      recomputeSummary (generate_json_data md pd order).1 := by
  simp [generate_json_data, generate_json_summary, recomputeSummary,
    List.countP_eq_length_filter]

section ConcreteWitnesses

attribute [local semireducible] Rat.add Rat.sub Rat.mul Rat.inv

theorem c1_per_test_delta_invariant_witness :
    nameBasic ∈ ordBasic ∧ getGas mdBasic nameBasic = 100 ∧ getGas pdBasic nameBasic = 120 ∧
    (((100 : Nat) = 0 ∧ (120 : Nat) = 0 →
        ∀ e ∈ analyze_comparisons mdBasic pdBasic ordBasic, e.1 ≠ nameBasic) ∧
      (¬((100 : Nat) = 0 ∧ (120 : Nat) = 0) → ∃ c : TestComparison,
        (nameBasic, c) ∈ analyze_comparisons mdBasic pdBasic ordBasic ∧
        c.main = 100 ∧ c.pr = 120 ∧
        c.absolute = (120 : Int) - (100 : Int) ∧
        (0 < 100 → c.percentage = (((120 : ℚ) - (100 : ℚ)) / (100 : ℚ)) * 100) ∧
        ((100 : Nat) = 0 → 0 < 120 → c.percentage = 100) ∧
        (0 < 100 → (120 : Nat) = 0 → c.percentage = -100) ∧
        c.account_type = get_account_type nameBasic)) :=
  ⟨by decide, by decide, by decide,
    c1_per_test_delta_invariant mdBasic pdBasic ordBasic nameBasic 100 120
      (by decide) (by decide) (by decide)⟩

theorem c3_amended_witness :
    (nameSponsored, dCat) ∈ compsCat ∧ dCat.account_type = some accIthaca ∧
    (filedUnder catAppSponsor nameSponsored = true →
      (stripFromMarker ('_' :: accIthaca) nameSponsored, accIthaca, dCat) ∈
        groupedCategory compsCat catAppSponsor) :=
  ⟨by decide, by decide,
    (c3_amended_filed_under_every_matching_category compsCat catAppSponsor
      nameSponsored dCat accIthaca (by decide) (by decide)).1⟩

/-- C10: in the serialized JSON summary, `improvements` counts every
comparison entry with percentage below minus one and `regressions` every
entry with percentage above five, regardless of account type; the markdown
summary block instead counts only candidate-account tests, with strictly
negative delta for improvements — and the two pairs of definitions disagree
on a concrete comparisons map that contains an account-less entry below
minus one and an account-less entry above five. -/
theorem c10_json_and_markdown_summary_definitions :
    (∀ comps : List (TName × TestComparison),
      (generate_json_summary comps).improvements =
        comps.countP (fun e => decide (e.2.percentage < -1)) ∧
      (generate_json_summary comps).regressions =
        comps.countP (fun e => decide (e.2.percentage > 5)) ∧
      markdown_improvements_count comps =
        comps.countP (fun e => decide (e.2.percentage < 0) && containsSub e.1 accIthaca) ∧
      markdown_regressions_count comps =
        comps.countP (fun e => decide (e.2.percentage > 5) && containsSub e.1 accIthaca)) ∧
    (generate_json_summary compsSum).improvements ≠ markdown_improvements_count compsSum ∧
    (generate_json_summary compsSum).regressions ≠ markdown_regressions_count compsSum ∧
    (∃ e ∈ compsSum, e.2.account_type = none ∧ e.2.percentage < -1) := by
  refine ⟨?_, by decide, by decide, by decide⟩
  intro comps
  refine ⟨?_, ?_, ?_, ?_⟩
  · simp [generate_json_summary, List.countP_eq_length_filter]
  · simp [generate_json_summary, List.countP_eq_length_filter]
  · simp [markdown_improvements_count, markdownIthacaTests,
      List.countP_eq_length_filter, List.filter_filter]
  · simp [markdown_regressions_count, markdownIthacaTests,
      List.countP_eq_length_filter, List.filter_filter]

end ConcreteWitnesses

/-- C7: every competitor savings record in the candidate-versus-competition
analysis satisfies the documented equations: the absolute saving is the
competitor's value minus the candidate's, the percentage saving divides the
absolute saving by the competitor's value (zero when that value is zero),
on both the PR and the main side, and the improvement is the difference of
the two percentage savings. -/
theorem c7_savings_record_equations
    (comps : List (TName × TestComparison)) (ci : CatInfo) (b : TName)
    (idata : TestComparison) (savs : List (TName × Savings))
    (hb : (b, idata, savs) ∈ ithacaCompsFor (groupedCategory comps ci))
    (a : TName) (s : Savings) (hs : (a, s) ∈ savs) :
    subValue (groupedCategory comps ci) b accIthaca = some idata ∧
    a ≠ accIthaca ∧
    (∃ ad : TestComparison, subValue (groupedCategory comps ci) b a = some ad ∧
      s.pr_savings_abs = (ad.pr : Int) - (idata.pr : Int) ∧
      (0 < ad.pr → s.pr_savings_pct = ((s.pr_savings_abs : ℚ) / (ad.pr : ℚ)) * 100) ∧
      (ad.pr = 0 → s.pr_savings_pct = 0) ∧
      s.main_savings_abs = (ad.main : Int) - (idata.main : Int) ∧
      (0 < ad.main → s.main_savings_pct = ((s.main_savings_abs : ℚ) / (ad.main : ℚ)) * 100) ∧
      (ad.main = 0 → s.main_savings_pct = 0) ∧
      s.improvement = s.pr_savings_pct - s.main_savings_pct) := by
  obtain ⟨b', hbmem, hfb⟩ := List.mem_filterMap.mp hb
  rcases hsv : subValue (groupedCategory comps ci) b' accIthaca with _ | i
  · rw [hsv] at hfb
    exact absurd hfb (by simp)
  · rw [hsv] at hfb
    simp only [Option.some.injEq, Prod.mk.injEq] at hfb
    obtain ⟨rfl, rfl, hinner⟩ := hfb
    rw [← hinner] at hs
    obtain ⟨a', hamem, hg⟩ := List.mem_filterMap.mp hs
    by_cases ha : (a' == accIthaca) = true
    · rw [if_pos ha] at hg
      exact absurd hg (by simp)
    · rw [Bool.not_eq_true] at ha
      rw [if_neg (by simp [ha])] at hg
      obtain ⟨ad, had, heq⟩ := Option.map_eq_some'.mp hg
      simp only [Prod.mk.injEq] at heq
      obtain ⟨rfl, rfl⟩ := heq
      exact ⟨hsv, beq_eq_false_iff_ne.mp ha, ad, had, rfl,
        fun hpos => by simp [savingsRecord, hpos],
        fun hz => by simp [savingsRecord, hz],
        rfl,
        fun hpos => by simp [savingsRecord, hpos],
        fun hz => by simp [savingsRecord, hz],
        rfl⟩

section ConcreteWitnessesTwo

attribute [local semireducible] Rat.add Rat.sub Rat.mul Rat.inv

theorem c7_savings_record_equations_witness :
    (baseSav, iSav, [(accSafe, sSav)]) ∈
        ithacaCompsFor (groupedCategory compsSav catSingleTransfer) ∧
    (accSafe, sSav) ∈ [(accSafe, sSav)] ∧
    (subValue (groupedCategory compsSav catSingleTransfer) baseSav accIthaca = some iSav ∧
     accSafe ≠ accIthaca ∧
     (∃ ad : TestComparison,
        subValue (groupedCategory compsSav catSingleTransfer) baseSav accSafe = some ad ∧
        sSav.pr_savings_abs = (ad.pr : Int) - (iSav.pr : Int) ∧
        (0 < ad.pr → sSav.pr_savings_pct = ((sSav.pr_savings_abs : ℚ) / (ad.pr : ℚ)) * 100) ∧
        (ad.pr = 0 → sSav.pr_savings_pct = 0) ∧
        sSav.main_savings_abs = (ad.main : Int) - (iSav.main : Int) ∧
        (0 < ad.main → sSav.main_savings_pct = ((sSav.main_savings_abs : ℚ) / (ad.main : ℚ)) * 100) ∧
        (ad.main = 0 → sSav.main_savings_pct = 0) ∧
        sSav.improvement = sSav.pr_savings_pct - sSav.main_savings_pct)) :=
  ⟨by decide, by decide,
    c7_savings_record_equations compsSav catSingleTransfer baseSav iSav [(accSafe, sSav)]
      (by decide) accSafe sSav (by decide)⟩

end ConcreteWitnessesTwo

theorem alookup_append_some {β : Type} (a : TName) (l1 l2 : List (TName × β)) (v : β)
    (h : alookup a l1 = some v) : alookup a (l1 ++ l2) = some v := by
  induction l1 with
  | nil => simp [alookup] at h
  | cons e es ih =>
    obtain ⟨k, w⟩ := e
    simp only [alookup, List.cons_append] at h ⊢
    by_cases hk : k = a
    · rw [if_pos hk] at h ⊢
      exact h
    · rw [if_neg hk] at h ⊢
      exact ih h

theorem alookup_append_none {β : Type} (a : TName) (l1 l2 : List (TName × β))
    (h : alookup a l1 = none) : alookup a (l1 ++ l2) = alookup a l2 := by
  induction l1 with
  | nil => simp [alookup]
  | cons e es ih =>
    obtain ⟨k, w⟩ := e
    simp only [alookup, List.cons_append] at h ⊢
    by_cases hk : k = a
    · rw [if_pos hk] at h
      exact absurd h (by simp)
    · rw [if_neg hk] at h ⊢
      exact ih h

theorem alookup_map_update (cd : List (TName × Nat)) (a : TName) (v old : Nat)
    (h : alookup a cd = some old) :
    alookup a (cd.map (updateEntry a v)) = some v := by
  induction cd with
  | nil => simp [alookup] at h
  | cons e es ih =>
    obtain ⟨k, w⟩ := e
    by_cases hk : k = a
    · have hhead : updateEntry a v (k, w) = (a, v) := by simp [updateEntry, hk]
      rw [List.map_cons, hhead]
      simp [alookup]
    · have hhead : updateEntry a v (k, w) = (k, w) := by simp [updateEntry, hk]
      rw [List.map_cons, hhead]
      simp only [alookup, if_neg hk] at h ⊢
      exact ih h

theorem alookup_map_update_ne (cd : List (TName × Nat)) (a b : TName) (v : Nat)
    (hba : b ≠ a) :
    alookup b (cd.map (updateEntry a v)) = alookup b cd := by
  induction cd with
  | nil => simp [alookup]
  | cons e es ih =>
    obtain ⟨k, w⟩ := e
    by_cases hk : k = a
    · have hhead : updateEntry a v (k, w) = (a, v) := by simp [updateEntry, hk]
      rw [List.map_cons, hhead]
      have hab : ¬a = b := fun he => hba he.symm
      have hkb : ¬k = b := fun he => hba (by rw [← he, hk])
      simp only [alookup, if_neg hab, if_neg hkb]
      exact ih
    · have hhead : updateEntry a v (k, w) = (k, w) := by simp [updateEntry, hk]
      rw [List.map_cons, hhead]
      simp only [alookup]
      by_cases hkb : k = b
      · rw [if_pos hkb, if_pos hkb]
      · rw [if_neg hkb, if_neg hkb]
        exact ih

theorem alookup_updateMin_self (cd : List (TName × Nat)) (a : TName) (v : Nat) :
    alookup a (updateMin cd a v) =
      some (match alookup a cd with | none => v | some old => Nat.min old v) := by
  rcases h : alookup a cd with _ | old
  · simp only [updateMin, h]
    rw [alookup_append_none a cd _ h]
    simp [alookup]
  · simp only [updateMin, h]
    by_cases hv : v < old
    · rw [if_pos hv, alookup_map_update cd a v old h]
      show some v = some (if old ≤ v then old else v)
      rw [if_neg (by omega)]
    · rw [if_neg hv, h]
      show some old = some (if old ≤ v then old else v)
      rw [if_pos (by omega)]

theorem alookup_updateMin_ne (cd : List (TName × Nat)) (a b : TName) (v : Nat)
    (hba : b ≠ a) : alookup b (updateMin cd a v) = alookup b cd := by
  rcases h : alookup a cd with _ | old
  · simp only [updateMin, h]
    rcases hb : alookup b cd with _ | wb
    · rw [alookup_append_none b cd _ hb]
      have hab : ¬a = b := fun he => hba he.symm
      simp [alookup, hab]
    · exact alookup_append_some b cd _ wb hb
  · simp only [updateMin, h]
    by_cases hv : v < old
    · rw [if_pos hv]
      exact alookup_map_update_ne cd a b v hba
    · rw [if_neg hv]

theorem chartData_fold (filt : TName → Bool) (a : TName) :
    ∀ (comps : List (TName × TestComparison)) (cd : List (TName × Nat)),
      alookup a (List.foldl (chartStep filt) cd comps) =
        combineMin (alookup a cd) (matchingPrs comps filt a) := by
  intro comps
  induction comps with
  | nil =>
    intro cd
    simp only [List.foldl_nil, matchingPrs, List.filterMap_nil]
    rcases h : alookup a cd with _ | v
    · simp [combineMin, listMin]
    · simp [combineMin]
  | cons e es ih =>
    intro cd
    rw [List.foldl_cons]
    rcases hacc : e.2.account_type with _ | b
    · have hstep : chartStep filt cd e = cd := by simp [chartStep, hacc]
      have hm : matchingPrs (e :: es) filt a = matchingPrs es filt a := by
        simp [matchingPrs, List.filterMap_cons, hacc]
      rw [hstep, hm]
      exact ih cd
    · by_cases hf : filt e.1 = true
      · have hstep : chartStep filt cd e = updateMin cd b e.2.pr := by
          simp [chartStep, hacc, hf]
        by_cases hab : b = a
        · subst hab
          have hm : matchingPrs (e :: es) filt b = e.2.pr :: matchingPrs es filt b := by
            simp [matchingPrs, List.filterMap_cons, hacc, hf]
          rw [hstep, hm, ih (updateMin cd b e.2.pr), alookup_updateMin_self]
          rcases h : alookup b cd with _ | old
          · simp [combineMin, listMin]
          · simp [combineMin, listMin, List.foldl_cons]
        · have hm : matchingPrs (e :: es) filt a = matchingPrs es filt a := by
            have : ¬(filt e.1 = true ∧ e.2.account_type = some a) := by
              rintro ⟨-, hx⟩
              rw [hacc] at hx
              exact hab (by injection hx)
            simp [matchingPrs, List.filterMap_cons, this]
          rw [hstep, hm, ih (updateMin cd b e.2.pr),
            alookup_updateMin_ne cd b a e.2.pr (fun he => hab he.symm)]
      · have hstep : chartStep filt cd e = cd := by simp [chartStep, hacc, hf]
        have hm : matchingPrs (e :: es) filt a = matchingPrs es filt a := by
          simp [matchingPrs, List.filterMap_cons, hf]
        rw [hstep, hm]
        exact ih cd

theorem foldl_min_le (l : List Nat) (v : Nat) :
    l.foldl Nat.min v ≤ v ∧ ∀ x ∈ l, l.foldl Nat.min v ≤ x := by
  induction l generalizing v with
  | nil => simp
  | cons x xs ih =>
    rw [List.foldl_cons]
    obtain ⟨h1, h2⟩ := ih (Nat.min v x)
    have hminl : Nat.min v x ≤ v := by
      show (if v ≤ x then v else x) ≤ v
      split <;> omega
    have hminr : Nat.min v x ≤ x := by
      show (if v ≤ x then v else x) ≤ x
      split <;> omega
    refine ⟨le_trans h1 hminl, ?_⟩
    intro y hy
    rcases List.mem_cons.mp hy with rfl | hy
    · exact le_trans h1 hminr
    · exact h2 y hy

theorem foldl_min_mem (l : List Nat) (v : Nat) :
    l.foldl Nat.min v = v ∨ l.foldl Nat.min v ∈ l := by
  induction l generalizing v with
  | nil => exact Or.inl rfl
  | cons x xs ih =>
    rw [List.foldl_cons]
    rcases ih (Nat.min v x) with h | h
    · rw [h]
      by_cases hvx : v ≤ x
      · left
        show (if v ≤ x then v else x) = v
        rw [if_pos hvx]
      · right
        show (if v ≤ x then v else x) ∈ x :: xs
        rw [if_neg hvx]
        exact List.mem_cons_self x xs
    · exact Or.inr (List.mem_cons_of_mem x h)

theorem listMin_spec (l : List Nat) (m : Nat) :
    listMin l = some m ↔ m ∈ l ∧ ∀ x ∈ l, m ≤ x := by
  cases l with
  | nil => simp [listMin]
  | cons v rest =>
    simp only [listMin, Option.some.injEq]
    constructor
    · rintro rfl
      constructor
      · rcases foldl_min_mem rest v with h | h
        · rw [h]
          exact List.mem_cons_self v rest
        · exact List.mem_cons_of_mem v h
      · intro x hx
        rcases List.mem_cons.mp hx with rfl | hx
        · exact (foldl_min_le rest x).1
        · exact (foldl_min_le rest v).2 x hx
    · rintro ⟨hmem, hle⟩
      have h1 : rest.foldl Nat.min v ≤ m := by
        rcases List.mem_cons.mp hmem with rfl | hm
        · exact (foldl_min_le rest m).1
        · exact (foldl_min_le rest v).2 m hm
      have h2 : m ≤ rest.foldl Nat.min v := by
        rcases foldl_min_mem rest v with h | h
        · rw [h]
          exact hle v (List.mem_cons_self v rest)
        · exact hle _ (List.mem_cons_of_mem v h)
      omega

theorem updateMin_ne_nil (cd : List (TName × Nat)) (a : TName) (v : Nat) :
    updateMin cd a v ≠ [] := by
  rcases h : alookup a cd with _ | old
  · simp [updateMin, h]
  · simp only [updateMin, h]
    by_cases hv : v < old
    · rw [if_pos hv]
      intro hc
      rw [List.map_eq_nil_iff] at hc
      subst hc
      simp [alookup] at h
    · rw [if_neg hv]
      intro hc
      subst hc
      simp [alookup] at h

theorem foldl_chartStep_ne_nil (filt : TName → Bool) :
    ∀ (comps : List (TName × TestComparison)) (cd : List (TName × Nat)),
      cd ≠ [] → List.foldl (chartStep filt) cd comps ≠ [] := by
  intro comps
  induction comps with
  | nil =>
    intro cd h
    simpa using h
  | cons e es ih =>
    intro cd h
    rw [List.foldl_cons]
    apply ih
    rcases hacc : e.2.account_type with _ | b
    · simpa [chartStep, hacc] using h
    · by_cases hf : filt e.1 = true
      · have hstep : chartStep filt cd e = updateMin cd b e.2.pr := by
          simp [chartStep, hacc, hf]
        rw [hstep]
        exact updateMin_ne_nil cd b e.2.pr
      · simpa [chartStep, hacc, hf] using h

theorem chartData_nil_iff (filt : TName → Bool) (comps : List (TName × TestComparison)) :
    chartData comps filt = [] ↔
      ∀ e ∈ comps, ¬(filt e.1 = true ∧ (e.2.account_type).isSome = true) := by
  induction comps with
  | nil => simp [chartData]
  | cons e es ih =>
    unfold chartData at ih ⊢
    rw [List.foldl_cons]
    rcases hacc : e.2.account_type with _ | b
    · have hstep : chartStep filt [] e = [] := by simp [chartStep, hacc]
      rw [hstep, ih]
      constructor
      · intro hall x hx
        rcases List.mem_cons.mp hx with rfl | hx
        · rintro ⟨-, hsome⟩
          rw [hacc] at hsome
          exact absurd hsome (by simp)
        · exact hall x hx
      · intro hall x hx
        exact hall x (List.mem_cons_of_mem e hx)
    · by_cases hf : filt e.1 = true
      · have hstep : chartStep filt [] e = updateMin [] b e.2.pr := by
          simp [chartStep, hacc, hf]
        rw [hstep]
        constructor
        · intro hc
          exact absurd hc (foldl_chartStep_ne_nil filt es _ (updateMin_ne_nil [] b e.2.pr))
        · intro hall
          exact absurd ⟨hf, by rw [hacc]; rfl⟩ (hall e (List.mem_cons_self e es))
      · have hstep : chartStep filt [] e = [] := by simp [chartStep, hacc, hf]
        rw [hstep, ih]
        constructor
        · intro hall x hx
          rcases List.mem_cons.mp hx with rfl | hx
          · rintro ⟨hfx, -⟩
            exact hf hfx
          · exact hall x hx
        · intro hall x hx
          exact hall x (List.mem_cons_of_mem e hx)

theorem chartProp_holds (filt : TName → Bool) : chartProp filt := by
  intro comps
  have hmain : ∀ a, alookup a (chartData comps filt) = listMin (matchingPrs comps filt a) := by
    intro a
    have h := chartData_fold filt a comps []
    simpa [chartData, combineMin, alookup] using h
  refine ⟨hmain, ?_, ?_⟩
  · intro a v
    rw [hmain a]
    exact listMin_spec _ _
  · have hempty : emitsChart comps filt = false ↔ chartData comps filt = [] := by
      unfold emitsChart
      cases hcd : chartData comps filt
      · simp [List.isEmpty]
      · simp [List.isEmpty]
    rw [hempty, chartData_nil_iff]

/-- C8: for each of the four fixed operation filters of the chart generator,
the value stored for an account type is exactly the minimum PR-side gas over
the comparison entries matching the filter with that account type (and is
characterised as a member below all members), and a chart is emitted exactly
when some entry matches the filter and carries an account type. -/
theorem c8_chart_minimum_per_account_and_emission :
    chartProp filtSingleErc20 ∧ chartProp filtBatchErc20 ∧
      chartProp filtUniswap ∧ chartProp filtNative :=
  ⟨chartProp_holds filtSingleErc20, chartProp_holds filtBatchErc20,
    chartProp_holds filtUniswap, chartProp_holds filtNative⟩
